import Mathlib

/-!
Shallow embedding of `src/exp_runner/runner.py` and proofs about its
variable-combination, metadata-merge, runner and persistence logic.

Python dictionaries (`MetaData = Dict[str, ...]`) are modelled as
insertion-ordered association lists `List (String × β)`; `dictInsert`
and `dictUpdate` mirror `dict.__setitem__` and `dict.update`
(overwrite in place when the key is present, append otherwise), and
`dictLookup` mirrors `dict.get` / `dict.__getitem__`. A real dict
never holds two entries with the same key, so the interesting lists
are the ones whose `dictKeys` are `Nodup`. Metadata values are an
opaque type parameter `β`, since the code never inspects them.
-/

/-- One entry-update of a Python dict (`d[k] = v`): if `k` is already a
key of `d`, replace its value in place, otherwise append `(k, v)` at the
end. -/
def dictInsert {β : Type} : List (String × β) → String → β → List (String × β)
  | [], k, v => [(k, v)]
  | (k', v') :: rest, k, v =>
    if k' = k then (k, v) :: rest else (k', v') :: dictInsert rest k v

/-- Python dict update `d.update(other)`: fold `dictInsert` over the entries
of `other` in order, so later entries overwrite earlier ones. -/
def dictUpdate {β : Type} (d other : List (String × β)) : List (String × β) :=
  other.foldl (fun acc p => dictInsert acc p.1 p.2) d

/-- Python dict lookup `d.get(k)`: first entry with key `k`, if any. -/
def dictLookup {β : Type} : List (String × β) → String → Option β
  | [], _ => none
  | (k', v) :: rest, k => if k' = k then some v else dictLookup rest k

/-- Keys of a metadata mapping. -/
def dictKeys {β : Type} (d : List (String × β)) : List String :=
  d.map Prod.fst

/-- The two key sets are disjoint. -/
def DisjointKeys {β : Type} (d e : List (String × β)) : Prop :=
  ∀ k, k ∈ dictKeys d → k ∉ dictKeys e

/-- Model of `Variable`: a value paired with a metadata mapping
(`@dataclass class Variable[A]`). -/
structure Variable (α β : Type) where
  value : α
  metadata : List (String × β)
deriving DecidableEq

/-- Model of `combine_variables(inputs, func)`: apply `func` to the list of raw
values and merge the metadata by updating an initially empty dict with
each member's metadata in order. -/
def combine_variables {α β γ : Type} (inputs : List (Variable α β))
    (func : List α → γ) : Variable γ β :=
  let value := func (inputs.map (fun var => var.value))
  let metadata := inputs.foldl (fun acc var => dictUpdate acc var.metadata) []
  Variable.mk value metadata

/-- Model of `itertools.product(*inputs)`: all selections of one element per list,
rightmost varying fastest; `product()` of no iterables yields one empty
tuple. -/
def listProduct {α : Type} : List (List α) → List (List α)
  | [] => [[]]
  | l :: rest => l.flatMap (fun x => (listProduct rest).map (fun t => x :: t))

/-- Model of `VarProduct.generate_from(inputs)`: for each combination of the
Cartesian product, build `cls(*values)` from the member values and merge
the member metadata by updating an initially empty dict in order.
The classmethod's constructor `cls` is modelled as a function from the
list of member values. -/
def VarProduct.generate_from {α β σ : Type} (cls : List α → σ)
    (inputs : List (List (Variable α β))) : List (Variable σ β) :=
  (listProduct inputs).map (fun combo =>
    let values := combo.map (fun v => v.value)
    let metadata := combo.foldl (fun acc v => dictUpdate acc v.metadata) []
    Variable.mk (cls values) metadata)

section DictLemmas

variable {β : Type}

lemma dictKeys_cons (k : String) (v : β) (rest : List (String × β)) :
    dictKeys ((k, v) :: rest) = k :: dictKeys rest := rfl

lemma dictInsert_of_not_mem (d : List (String × β)) (k : String) (v : β)
    (h : k ∉ dictKeys d) : dictInsert d k v = d ++ [(k, v)] := by
  induction d with
  | nil => rfl
  | cons p rest ih =>
    obtain ⟨k', v'⟩ := p
    rw [dictKeys_cons] at h
    have hk : ¬k' = k := fun hh => h (hh ▸ List.mem_cons_self k' _)
    have hrest : k ∉ dictKeys rest := fun hh => h (List.mem_cons_of_mem _ hh)
    simp [dictInsert, hk, ih hrest]

lemma dictKeys_append (d e : List (String × β)) :
    dictKeys (d ++ e) = dictKeys d ++ dictKeys e := by
  simp [dictKeys]

lemma dictUpdate_of_disjoint (d e : List (String × β))
    (hnd : (dictKeys e).Nodup) (hdisj : DisjointKeys e d) :
    dictUpdate d e = d ++ e := by
  induction e generalizing d with
  | nil => simp [dictUpdate]
  | cons p rest ih =>
    obtain ⟨k, v⟩ := p
    have hk : k ∉ dictKeys d := by
      intro hmem
      exact hdisj k (by rw [dictKeys_cons]; exact List.mem_cons_self k _) hmem
    have hstep : dictInsert d k v = d ++ [(k, v)] := dictInsert_of_not_mem d k v hk
    rw [dictKeys_cons] at hnd
    have hkrest : k ∉ dictKeys rest := (List.nodup_cons.mp hnd).1
    have hnd' : (dictKeys rest).Nodup := (List.nodup_cons.mp hnd).2
    have hdisj' : DisjointKeys rest (d ++ [(k, v)]) := by
      intro k' hk' hmem
      rw [dictKeys_append] at hmem
      rcases List.mem_append.mp hmem with h1 | h1
      · exact hdisj k' (by rw [dictKeys_cons]; exact List.mem_cons_of_mem _ hk') h1
      · have : k' = k := by simpa [dictKeys] using h1
        subst this
        exact hkrest hk'
    calc dictUpdate d ((k, v) :: rest)
        = dictUpdate (d ++ [(k, v)]) rest := by
          simp [dictUpdate, hstep]
      _ = (d ++ [(k, v)]) ++ rest := ih (d ++ [(k, v)]) hnd' hdisj'
      _ = d ++ ((k, v) :: rest) := by simp

lemma dictLookup_append (d e : List (String × β)) (k : String) :
    dictLookup (d ++ e) k =
      match dictLookup d k with
      | some v => some v
      | none => dictLookup e k := by
  induction d with
  | nil => simp [dictLookup]
  | cons p rest ih =>
    obtain ⟨k', v⟩ := p
    by_cases h : k' = k
    · simp [dictLookup, h]
    · simp [dictLookup, h, ih]

lemma dictLookup_eq_none_of_not_mem (d : List (String × β)) (k : String)
    (h : k ∉ dictKeys d) : dictLookup d k = none := by
  induction d with
  | nil => rfl
  | cons p rest ih =>
    obtain ⟨k', v⟩ := p
    rw [dictKeys_cons] at h
    have hk : ¬k' = k := fun hh => h (hh ▸ List.mem_cons_self k' _)
    have hrest : k ∉ dictKeys rest := fun hh => h (List.mem_cons_of_mem _ hh)
    simp [dictLookup, hk, ih hrest]

lemma dictLookup_isSome_iff_mem (d : List (String × β)) (k : String) :
    (dictLookup d k).isSome ↔ k ∈ dictKeys d := by
  induction d with
  | nil => simp [dictLookup, dictKeys]
  | cons p rest ih =>
    obtain ⟨k', v⟩ := p
    by_cases h : k' = k
    · simp [dictLookup, h, dictKeys_cons]
    · rw [dictKeys_cons]
      simp [dictLookup, h, ih, Ne.symm h]

lemma dictLookup_dictInsert_self (d : List (String × β)) (k : String) (v : β) :
    dictLookup (dictInsert d k v) k = some v := by
  induction d with
  | nil => simp [dictInsert, dictLookup]
  | cons p rest ih =>
    obtain ⟨k', v'⟩ := p
    by_cases h : k' = k
    · simp [dictInsert, h, dictLookup]
    · simp [dictInsert, h, dictLookup, ih]

lemma dictLookup_dictInsert_other (d : List (String × β)) (k k' : String) (v : β)
    (h : k' ≠ k) : dictLookup (dictInsert d k v) k' = dictLookup d k' := by
  have hk : ¬k = k' := Ne.symm h
  induction d with
  | nil => simp [dictInsert, dictLookup, hk]
  | cons p rest ih =>
    obtain ⟨a, b⟩ := p
    by_cases ha : a = k
    · subst ha
      simp [dictInsert, dictLookup, hk]
    · by_cases ha' : a = k'
      · subst ha'
        simp [dictInsert, dictLookup, ha, h]
      · simp [dictInsert, dictLookup, ha, ha', ih]

end DictLemmas

instance {β : Type} : DecidableRel (@DisjointKeys β) := fun d e =>
  inferInstanceAs (Decidable (∀ k ∈ dictKeys d, k ∉ dictKeys e))

section MergeLemmas

variable {β : Type}

lemma dictLookup_dictUpdate (a b : List (String × β)) (k : String)
    (hnd : (dictKeys b).Nodup) :
    dictLookup (dictUpdate a b) k =
      match dictLookup b k with
      | some v => some v
      | none => dictLookup a k := by
  induction b generalizing a with
  | nil => simp [dictUpdate, dictLookup]
  | cons p rest ih =>
    obtain ⟨k', v⟩ := p
    rw [dictKeys_cons] at hnd
    have hkrest : k' ∉ dictKeys rest := (List.nodup_cons.mp hnd).1
    have hnd' : (dictKeys rest).Nodup := (List.nodup_cons.mp hnd).2
    have hstep : dictUpdate a ((k', v) :: rest) = dictUpdate (dictInsert a k' v) rest := by
      simp [dictUpdate]
    rw [hstep, ih (dictInsert a k' v) hnd']
    by_cases hk : k' = k
    · subst hk
      rw [dictLookup_eq_none_of_not_mem rest k' hkrest]
      simp [dictLookup, dictLookup_dictInsert_self]
    · have h1 : dictLookup (dictInsert a k' v) k = dictLookup a k :=
        dictLookup_dictInsert_other a k' k v (Ne.symm hk)
      simp [dictLookup, hk, h1]

lemma foldl_dictUpdate_flatten (ms : List (List (String × β)))
    (a : List (String × β))
    (hnd : ∀ m ∈ ms, (dictKeys m).Nodup)
    (hp : ms.Pairwise DisjointKeys)
    (ha : ∀ m ∈ ms, DisjointKeys m a) :
    ms.foldl dictUpdate a = a ++ ms.flatten := by
  induction ms generalizing a with
  | nil => simp
  | cons m rest ih =>
    have h1 : dictUpdate a m = a ++ m :=
      dictUpdate_of_disjoint a m (hnd m (List.mem_cons_self m rest))
        (ha m (List.mem_cons_self m rest))
    have hp' : rest.Pairwise DisjointKeys := (List.pairwise_cons.mp hp).2
    have hmrest : ∀ m' ∈ rest, DisjointKeys m m' := (List.pairwise_cons.mp hp).1
    have ha' : ∀ m' ∈ rest, DisjointKeys m' (a ++ m) := by
      intro m' hm' k hk hmem
      rw [dictKeys_append] at hmem
      rcases List.mem_append.mp hmem with h2 | h2
      · exact ha m' (List.mem_cons_of_mem m hm') k hk h2
      · exact hmrest m' hm' k h2 hk
    calc (m :: rest).foldl dictUpdate a
        = rest.foldl dictUpdate (dictUpdate a m) := by simp
      _ = rest.foldl dictUpdate (a ++ m) := by rw [h1]
      _ = (a ++ m) ++ rest.flatten :=
          ih (a ++ m) (fun m' hm' => hnd m' (List.mem_cons_of_mem m hm')) hp' ha'
      _ = a ++ (m :: rest).flatten := by simp

lemma listProduct_forall₂ {α : Type} (inputs : List (List α)) (combo : List α)
    (h : combo ∈ listProduct inputs) : List.Forall₂ (fun v X => v ∈ X) combo inputs := by
  induction inputs generalizing combo with
  | nil =>
    simp [listProduct] at h
    subst h
    exact List.Forall₂.nil
  | cons l rest ih =>
    simp only [listProduct, List.mem_flatMap, List.mem_map] at h
    obtain ⟨x, hx, t, ht, rfl⟩ := h
    exact List.Forall₂.cons hx (ih t ht)

lemma forall₂_mem_exists {α : Type} {combo : List α} {inputs : List (List α)}
    (h : List.Forall₂ (fun v X => v ∈ X) combo inputs) :
    ∀ w ∈ combo, ∃ Y ∈ inputs, w ∈ Y := by
  induction h with
  | nil => intro w hw; cases hw
  | cons hv hrest ih =>
    intro w hw
    rcases List.mem_cons.mp hw with rfl | hw'
    · exact ⟨_, List.mem_cons_self _ _, hv⟩
    · obtain ⟨Y, hY, hwY⟩ := ih w hw'
      exact ⟨Y, List.mem_cons_of_mem _ hY, hwY⟩

lemma pairwise_of_forall₂ {α : Type} {R : α → α → Prop} {combo : List α}
    {inputs : List (List α)}
    (hf : List.Forall₂ (fun v X => v ∈ X) combo inputs)
    (hp : inputs.Pairwise (fun X Y => ∀ vx ∈ X, ∀ vy ∈ Y, R vx vy)) :
    combo.Pairwise R := by
  induction hf with
  | nil => exact List.Pairwise.nil
  | cons hv hrest ih =>
    have hhead := (List.pairwise_cons.mp hp).1
    have htail := (List.pairwise_cons.mp hp).2
    refine List.Pairwise.cons ?_ (ih htail)
    intro w hw
    obtain ⟨Y, hY, hwY⟩ := forall₂_mem_exists hrest w hw
    exact hhead Y hY _ hv w hwY

end MergeLemmas

lemma flatMap_singleton_map {α γ : Type} (l : List α) (f : α → γ) :
    l.flatMap (fun x => [f x]) = l.map f := by
  induction l with
  | nil => rfl
  | cons x rest ih => simp [ih]

lemma listProduct_pair {α : Type} (xs ys : List α) :
    listProduct [xs, ys] = (xs ×ˢ ys).map (fun p => [p.1, p.2]) := by
  simp [listProduct, SProd.sprod, List.product, List.map_flatMap, List.flatMap_map,
    flatMap_singleton_map]
  rfl

example : listProduct [[1, 2], [3, 4]] = [[1, 3], [1, 4], [2, 3], [2, 4]] := by decide

example : dictUpdate [("a", 1), ("b", 2)] [("b", 7), ("c", 3)]
    = [("a", 1), ("b", 7), ("c", 3)] := by decide

/-- C1: the merged metadata of a combination starts from an empty dict and
overlays each member's metadata in the supplied order, later keys winning
(both in `combine_variables` and in `VarProduct.generate_from`); with
pairwise-disjoint keys the merge is the union (concatenation) of the
individual mappings. -/
theorem c1_metadata_merge {α β γ σ : Type} (f : List α → γ) (cls : List α → σ)
    (vars : List (Variable α β)) (inputs : List (List (Variable α β))) :
    (combine_variables vars f).metadata
        = vars.foldl (fun acc v => dictUpdate acc v.metadata) []
  ∧ (VarProduct.generate_from cls inputs).map (fun v => v.metadata)
        = (listProduct inputs).map
            (fun combo => combo.foldl (fun acc v => dictUpdate acc v.metadata) [])
  ∧ (∀ (a b : List (String × β)) (k : String),
        (dictKeys b).Nodup →
        dictLookup (dictUpdate a b) k
          = match dictLookup b k with
            | some v => some v
            | none => dictLookup a k)
  ∧ ((∀ v ∈ vars, (dictKeys v.metadata).Nodup) →
      (vars.map (fun v => v.metadata)).Pairwise DisjointKeys →
      (combine_variables vars f).metadata = (vars.map (fun v => v.metadata)).flatten)
  ∧ ((∀ X ∈ inputs, ∀ v ∈ X, (dictKeys v.metadata).Nodup) →
      inputs.Pairwise (fun X Y => ∀ vx ∈ X, ∀ vy ∈ Y,
        DisjointKeys vx.metadata vy.metadata) →
      (VarProduct.generate_from cls inputs).map (fun v => v.metadata)
        = (listProduct inputs).map
            (fun combo => (combo.map (fun v => v.metadata)).flatten)) := by
  refine ⟨rfl, ?_, ?_, ?_, ?_⟩
  · unfold VarProduct.generate_from
    rw [List.map_map]
    rfl
  · intro a b k hnd
    exact dictLookup_dictUpdate a b k hnd
  · intro hnd hp
    show vars.foldl (fun acc v => dictUpdate acc v.metadata) []
        = (vars.map (fun v => v.metadata)).flatten
    rw [← List.foldl_map (fun v : Variable α β => v.metadata) dictUpdate vars []]
    rw [foldl_dictUpdate_flatten _ []
        (by intro m hm; obtain ⟨v, hv, rfl⟩ := List.mem_map.mp hm; exact hnd v hv)
        hp
        (by intro m hm k hk hmem; simp [dictKeys] at hmem)]
    simp
  · intro hnd hp
    unfold VarProduct.generate_from
    rw [List.map_map]
    apply List.map_congr_left
    intro combo hcombo
    have hf := listProduct_forall₂ inputs combo hcombo
    have hnodup : ∀ v ∈ combo, (dictKeys v.metadata).Nodup := by
      intro v hv
      obtain ⟨Y, hY, hvY⟩ := forall₂_mem_exists hf v hv
      exact hnd Y hY v hvY
    have hpw : combo.Pairwise (fun v w => DisjointKeys v.metadata w.metadata) :=
      pairwise_of_forall₂ hf hp
    show combo.foldl (fun acc v => dictUpdate acc v.metadata) []
        = (combo.map (fun v => v.metadata)).flatten
    rw [← List.foldl_map (fun v : Variable α β => v.metadata) dictUpdate combo []]
    rw [foldl_dictUpdate_flatten _ []
        (by intro m hm; obtain ⟨v, hv, rfl⟩ := List.mem_map.mp hm; exact hnodup v hv)
        (List.pairwise_map.mpr hpw)
        (by intro m hm k hk hmem; simp [dictKeys] at hmem)]
    simp

/-- Witness for C1 at the spec's concrete scenario: two variables with
disjoint metadata keys merge to the union of their metadata. -/
theorem c1_metadata_merge_witness :
    (∀ v ∈ [Variable.mk 1 [("a", (1 : Nat))], Variable.mk 2 [("b", 2)]],
        (dictKeys v.metadata).Nodup)
  ∧ (combine_variables [Variable.mk 1 [("a", (1 : Nat))], Variable.mk 2 [("b", 2)]]
        (fun l : List Nat => l)).metadata = [("a", 1), ("b", 2)] := by
  constructor
  · decide
  · exact ((c1_metadata_merge (fun l : List Nat => l) (fun l : List Nat => l)
        [Variable.mk 1 [("a", (1 : Nat))], Variable.mk 2 [("b", 2)]]
        []).2.2.2.1 (by decide) (by decide)).trans (by decide)

/-- C2: over two collections of sizes m and n, `VarProduct.generate_from`
yields exactly m·n combinations, one per pairing (enumerated by the
Cartesian product, which is duplicate-free for duplicate-free inputs and
contains every pairing), and an empty collection yields the empty
sequence. -/
theorem c2_cartesian_completeness {α β σ : Type} (cls : List α → σ)
    (xs ys : List (Variable α β)) :
    (VarProduct.generate_from cls [xs, ys]).length = xs.length * ys.length
  ∧ VarProduct.generate_from cls [xs, ys]
      = (xs ×ˢ ys).map (fun p =>
          Variable.mk (cls [p.1.value, p.2.value])
            (dictUpdate (dictUpdate [] p.1.metadata) p.2.metadata))
  ∧ (∀ x ∈ xs, ∀ y ∈ ys, (x, y) ∈ xs ×ˢ ys)
  ∧ (xs.Nodup → ys.Nodup → (xs ×ˢ ys).Nodup)
  ∧ VarProduct.generate_from cls [([] : List (Variable α β)), ys] = []
  ∧ VarProduct.generate_from cls [xs, ([] : List (Variable α β))] = [] := by
  have h2 : VarProduct.generate_from cls [xs, ys]
      = (xs ×ˢ ys).map (fun p =>
          Variable.mk (cls [p.1.value, p.2.value])
            (dictUpdate (dictUpdate [] p.1.metadata) p.2.metadata)) := by
    unfold VarProduct.generate_from
    rw [listProduct_pair, List.map_map]
    rfl
  refine ⟨?_, h2, ?_, ?_, ?_, ?_⟩
  · rw [h2, List.length_map, List.length_product]
  · intro x hx y hy
    exact List.mem_product.mpr ⟨hx, hy⟩
  · intro h1 hy
    exact h1.product hy
  · simp [VarProduct.generate_from, listProduct]
  · simp [VarProduct.generate_from, listProduct]

/-- Witness for C2 at the spec's concrete scenario (domains of sizes 2
and 2): four combinations, duplicate-free pairings. -/
theorem c2_cartesian_completeness_witness :
    (VarProduct.generate_from (fun l : List Nat => l)
        [[Variable.mk 1 [("a", (1 : Nat))], Variable.mk 2 [("a", 2)]],
         [Variable.mk 3 [("b", 3)], Variable.mk 4 [("b", 4)]]]).length = 4
  ∧ ([Variable.mk 1 [("a", (1 : Nat))], Variable.mk 2 [("a", 2)]] ×ˢ
        [Variable.mk 3 [("b", 3)], Variable.mk 4 [("b", 4)]]).Nodup := by
  constructor
  · rw [(c2_cartesian_completeness (fun l : List Nat => l)
        [Variable.mk 1 [("a", (1 : Nat))], Variable.mk 2 [("a", 2)]]
        [Variable.mk 3 [("b", 3)], Variable.mk 4 [("b", 4)]]).1]
    rfl
  · exact (c2_cartesian_completeness (fun l : List Nat => l)
        [Variable.mk 1 [("a", (1 : Nat))], Variable.mk 2 [("a", 2)]]
        [Variable.mk 3 [("b", 3)], Variable.mk 4 [("b", 4)]]).2.2.2.1
        (by decide) (by decide)

/-- C10: for every tuple of the Cartesian product, the metadata produced
by `VarProduct.generate_from` equals the metadata of `combine_variables`
on the same tuple, for any combining function: the two merge
implementations agree. -/
theorem c10_merge_implementations_agree {α β γ σ : Type} (f : List α → γ)
    (cls : List α → σ) (inputs : List (List (Variable α β))) :
    (VarProduct.generate_from cls inputs).map (fun v => v.metadata)
      = (listProduct inputs).map (fun combo => (combine_variables combo f).metadata) := by
  unfold VarProduct.generate_from combine_variables
  rw [List.map_map]
  rfl

/-!
The `runner` decorator's wrapped function and the `save_df` persistence
helper. Filesystem effects (directory creation, file writes) are
recorded as an ordered trace of `SdStep`s; the dataframe library's
writers are external collaborators, so a write is an opaque step
carrying the writer's name, the target path and the accumulated rows.
An experiment function that can raise is modelled as returning
`Except`; the trace of values it is invoked on is recorded so that
"never invoked" claims are statable.
-/

/-- The loop guard `head is not None and i >= head` of the wrapped
function. -/
def headStop (head : Option Nat) (i : Nat) : Bool :=
  match head with
  | some k => decide (i ≥ k)
  | none => false

/-- The accumulation loop of the wrapped function for an experiment
function that never raises: starting at index `i`, stop as soon as the
head guard fires, otherwise append one merged row
`{**var.metadata, **res}` per result and continue. -/
def runnerRows {α β : Type} (func : α → List (List (String × β)))
    (head : Option Nat) : Nat → List (Variable α β) → List (List (String × β))
  | _, [] => []
  | i, var :: rest =>
    if headStop head i then []
    else ((func var.value).map (fun res => dictUpdate var.metadata res))
      ++ runnerRows func head (i + 1) rest

/-- The same loop for an experiment function that may raise
(`Except.error`), returning both the list of values the experiment
function was invoked on (in order) and either the first error or the
accumulated rows. An error stops the loop at once. -/
def runLoop {α β ε : Type} (func : α → Except ε (List (List (String × β))))
    (head : Option Nat) :
    Nat → List (Variable α β) → List α × Except ε (List (List (String × β)))
  | _, [] => ([], Except.ok [])
  | i, var :: rest =>
    if headStop head i then ([], Except.ok [])
    else
      match func var.value with
      | Except.error e => ([var.value], Except.error e)
      | Except.ok results =>
        match runLoop func head (i + 1) rest with
        | (calls, Except.error e) => (var.value :: calls, Except.error e)
        | (calls, Except.ok more) =>
          (var.value :: calls,
            Except.ok (results.map (fun res => dictUpdate var.metadata res) ++ more))

/-- The combinations the loop processes: all of them, or the first `k`
when `head = k`. -/
def processedVars {α β : Type} (head : Option Nat)
    (inputs : List (Variable α β)) : List (Variable α β) :=
  match head with
  | none => inputs
  | some k => inputs.take k

/-- One recorded filesystem effect of `save_df`. -/
inductive SdStep (β : Type) where
  | mkdirP (dir : String)
  | write (writerName : String) (path : String) (rows : List (List (String × β)))
deriving DecidableEq

/-- The `writer_map` dict of `save_df`, mapping a format string to the
dataframe writer method dispatched for it. -/
def writer_map : List (String × String) :=
  [("csv", "write_csv"), ("json", "write_json"), ("ndjson", "write_ndjson"),
   ("parquet", "write_parquet"), ("ipc", "write_ipc"),
   ("ipc_stream", "write_ipc_stream"), ("excel", "write_excel"),
   ("clipboard", "write_clipboard"), ("avro", "write_avro"),
   ("delta", "write_delta"), ("iceberg", "write_iceberg"),
   ("database", "write_database")]

/-- A local-time instant, the input `datetime.now()` hands to
`strftime`. -/
structure LocalTime where
  year : Nat
  month : Nat
  day : Nat
  hour : Nat
  minute : Nat
  second : Nat
  microsecond : Nat

/-- Zero-padding of a number to a field width, as `strftime` does. -/
def zeroPad (width n : Nat) : String :=
  let s := toString n
  String.mk (List.replicate (width - s.length) '0') ++ s

/-- Model of `datetime.strftime("%Y-%m-%d_%H-%M-%S-%f")`: `%f` is the
microsecond count zero-padded to six digits. -/
def strftimeFull (t : LocalTime) : String :=
  zeroPad 4 t.year ++ "-" ++ zeroPad 2 t.month ++ "-" ++ zeroPad 2 t.day ++ "_" ++
  zeroPad 2 t.hour ++ "-" ++ zeroPad 2 t.minute ++ "-" ++ zeroPad 2 t.second ++ "-" ++
  zeroPad 6 t.microsecond

/-- Model of `get_timestamp()`: the strftime output with the last three
characters sliced off (`[:-3]`), leaving millisecond precision. -/
def get_timestamp (t : LocalTime) : String :=
  (strftimeFull t).dropRight 3

/-- Model of `save_df(dataframe, output_dir, name, format)`: default the
directory (`output_dir or "output"`), create it, build the filename
from the timestamp and the optional non-empty name joined by `_`, look
the format up in `writer_map` and call the writer on the path. A
missing writer means calling `None`, which fails. The returned pair is
the trace of effects that happened and the failure, if any. -/
def save_df {β : Type} (rows : List (List (String × β))) (ts : String)
    (output_dir : Option String) (name : Option String) (format : String) :
    List (SdStep β) × Option String :=
  let dir := match output_dir with
    | none => "output"
    | some d => if d = "" then "output" else d
  let parts := [ts] ++ (match name with
    | none => []
    | some n => if n = "" then [] else [n])
  let filename := dir ++ "/" ++ String.intercalate "_" parts
  match dictLookup writer_map format with
  | some w => ([SdStep.mkdirP dir, SdStep.write w filename rows], none)
  | none => ([SdStep.mkdirP dir], some "TypeError: NoneType object is not callable")

/-- A failure of one run of the wrapped function. -/
inductive RunError (ε : Type) where
  | experimentError (e : ε)
  | saveError (msg : String)
deriving DecidableEq

/-- The wrapped function the `runner` decorator returns: accumulate all
rows over the inputs (an experiment error propagates and nothing else
happens), then hand the rows to `save_df` with the function's name as
label. The result is the trace of filesystem effects and the failure,
if any. -/
def wrapped {α β ε : Type} (func : α → Except ε (List (List (String × β))))
    (output_dir : Option String) (format : String) (head : Option Nat)
    (fname : String) (ts : String) (inputs : List (Variable α β)) :
    List (SdStep β) × Option (RunError ε) :=
  match (runLoop func head 0 inputs).2 with
  | Except.error e => ([], some (RunError.experimentError e))
  | Except.ok rows =>
    let out := save_df rows ts output_dir (some fname) format
    (out.1, out.2.map RunError.saveError)

example : get_timestamp (LocalTime.mk 2025 1 2 3 4 5 6789) = "2025-01-02_03-04-05-006" := by
  decide

example : (save_df ([] : List (List (String × Nat))) "T" none (some "exp") "csv").1
    = [SdStep.mkdirP "output", SdStep.write "write_csv" "output/T_exp" []] := by decide

section RunnerLemmas

variable {α β : Type}

lemma runnerRows_none (func : α → List (List (String × β)))
    (inputs : List (Variable α β)) : ∀ i,
    runnerRows func none i inputs
      = inputs.flatMap (fun var => (func var.value).map
          (fun res => dictUpdate var.metadata res)) := by
  induction inputs with
  | nil => intro i; rfl
  | cons var rest ih =>
    intro i
    simp [runnerRows, headStop, ih (i + 1)]

lemma runnerRows_some (func : α → List (List (String × β)))
    (k : Nat) (inputs : List (Variable α β)) : ∀ i,
    runnerRows func (some k) i inputs
      = (inputs.take (k - i)).flatMap (fun var => (func var.value).map
          (fun res => dictUpdate var.metadata res)) := by
  induction inputs with
  | nil => intro i; simp [runnerRows]
  | cons var rest ih =>
    intro i
    by_cases h : i ≥ k
    · have hk : k - i = 0 := Nat.sub_eq_zero_of_le h
      simp [runnerRows, headStop, h, hk]
    · have h' : i < k := Nat.lt_of_not_le h
      have hk : k - i = (k - (i + 1)) + 1 := by omega
      simp only [runnerRows, headStop, ge_iff_le, decide_eq_true_eq]
      rw [if_neg (by simpa using h), hk, List.take_succ_cons, List.flatMap_cons,
        ih (i + 1)]

lemma runnerRows_eq (func : α → List (List (String × β))) (head : Option Nat)
    (inputs : List (Variable α β)) :
    runnerRows func head 0 inputs
      = (processedVars head inputs).flatMap (fun var => (func var.value).map
          (fun res => dictUpdate var.metadata res)) := by
  cases head with
  | none => exact runnerRows_none func inputs 0
  | some k =>
    rw [runnerRows_some func k inputs 0]
    simp [processedVars]

lemma runLoop_ok_snd {ε : Type} (f : α → List (List (String × β)))
    (head : Option Nat) (inputs : List (Variable α β)) : ∀ i,
    (runLoop (fun a => Except.ok (f a) : α → Except ε _) head i inputs).2
      = Except.ok (runnerRows f head i inputs) := by
  induction inputs with
  | nil => intro i; rfl
  | cons var rest ih =>
    intro i
    by_cases h : headStop head i
    · simp [runLoop, runnerRows, h]
    · simp only [runLoop, runnerRows, h]
      rw [if_neg (by simp [h]), if_neg (by simp [h])]
      have := ih (i + 1)
      cases hrec : runLoop (fun a => Except.ok (f a) : α → Except ε _) head (i + 1) rest with
      | mk calls out =>
        rw [hrec] at this
        simp at this
        subst this
        simp

lemma runLoop_ok_fst_some {ε : Type} (f : α → List (List (String × β)))
    (k : Nat) (inputs : List (Variable α β)) : ∀ i,
    (runLoop (fun a => Except.ok (f a) : α → Except ε _) (some k) i inputs).1
      = (inputs.take (k - i)).map (fun v => v.value) := by
  induction inputs with
  | nil => intro i; simp [runLoop]
  | cons var rest ih =>
    intro i
    by_cases h : i ≥ k
    · have hk : k - i = 0 := Nat.sub_eq_zero_of_le h
      simp [runLoop, headStop, h, hk]
    · have h' : i < k := Nat.lt_of_not_le h
      have hk : k - i = (k - (i + 1)) + 1 := by omega
      simp only [runLoop, headStop, ge_iff_le, decide_eq_true_eq]
      rw [if_neg (by simpa using h), hk, List.take_succ_cons, List.map_cons]
      have := ih (i + 1)
      cases hrec : runLoop (fun a => Except.ok (f a) : α → Except ε _) (some k) (i + 1) rest with
      | mk calls out =>
        rw [hrec] at this
        simp at this
        subst this
        cases out with
        | error e => simp
        | ok more => simp

lemma runLoop_error {ε : Type} (func : α → Except ε (List (List (String × β))))
    (xs : List (Variable α β)) (bad : Variable α β) (ys : List (Variable α β))
    (e : ε) (hok : ∀ x ∈ xs, ∃ rs, func x.value = Except.ok rs)
    (hbad : func bad.value = Except.error e) : ∀ i,
    runLoop func none i (xs ++ bad :: ys)
      = (xs.map (fun v => v.value) ++ [bad.value], Except.error e) := by
  induction xs with
  | nil =>
    intro i
    simp [runLoop, headStop, hbad]
  | cons x rest ih =>
    intro i
    obtain ⟨rs, hrs⟩ := hok x (List.mem_cons_self x rest)
    have ih' := ih (fun x' hx' => hok x' (List.mem_cons_of_mem x hx')) (i + 1)
    simp only [List.cons_append, runLoop, headStop]
    rw [if_neg (by simp), hrs]
    simp only [List.append_eq]
    rw [ih']
    simp

end RunnerLemmas

lemma dictLookup_dictUpdate_not_mem {β : Type} (m r : List (String × β))
    (k : String) (h : k ∉ dictKeys r) :
    dictLookup (dictUpdate m r) k = dictLookup m k := by
  induction r generalizing m with
  | nil => rfl
  | cons p rest ih =>
    obtain ⟨k', v⟩ := p
    rw [dictKeys_cons] at h
    have h1 : k ≠ k' := fun hh => h (by rw [hh]; exact List.mem_cons_self k' _)
    have h2 : k ∉ dictKeys rest := fun hh => h (List.mem_cons_of_mem _ hh)
    have hstep : dictUpdate m ((k', v) :: rest) = dictUpdate (dictInsert m k' v) rest := by
      simp [dictUpdate]
    rw [hstep, ih (dictInsert m k' v) h2,
      dictLookup_dictInsert_other m k' k v h1]

/-- C3: every accumulated row is `merge(combination.metadata, result)`,
one row per result mapping of each processed combination, and on a key
collision the result mapping's value wins (a key absent from the result
keeps the metadata's value). -/
theorem c3_row_is_merge {α β : Type} (func : α → List (List (String × β)))
    (head : Option Nat) (inputs : List (Variable α β))
    (m r : List (String × β)) (k : String) :
    runnerRows func head 0 inputs
      = (processedVars head inputs).flatMap (fun var => (func var.value).map
          (fun res => dictUpdate var.metadata res))
  ∧ ((dictKeys r).Nodup → k ∈ dictKeys r →
      dictLookup (dictUpdate m r) k = dictLookup r k)
  ∧ (k ∉ dictKeys r → dictLookup (dictUpdate m r) k = dictLookup m k) := by
  refine ⟨runnerRows_eq func head inputs, ?_, ?_⟩
  · intro hnd hk
    have h := dictLookup_dictUpdate m r k hnd
    obtain ⟨v, hv⟩ := Option.isSome_iff_exists.mp
      ((dictLookup_isSome_iff_mem r k).mpr hk)
    rw [hv] at h ⊢
    simpa using h
  · intro hk
    exact dictLookup_dictUpdate_not_mem m r k hk

/-- Witness for C3: a concrete run of two combinations where the
experiment result's `"a"` overrides the metadata's `"a"`. -/
theorem c3_row_is_merge_witness :
    ((dictKeys [("a", (7 : Nat)), ("sum", 4)]).Nodup
      ∧ "a" ∈ dictKeys [("a", (7 : Nat)), ("sum", 4)]
      ∧ dictLookup (dictUpdate [("a", 1), ("b", 2)] [("a", (7 : Nat)), ("sum", 4)]) "a"
          = dictLookup [("a", (7 : Nat)), ("sum", 4)] "a")
  ∧ runnerRows (fun a : Nat => [[("sum", a)]]) none 0
        [Variable.mk 1 [("a", (1 : Nat))], Variable.mk 2 [("a", 2)]]
      = (processedVars none [Variable.mk 1 [("a", (1 : Nat))], Variable.mk 2 [("a", 2)]]).flatMap
          (fun var => ((fun a : Nat => [[("sum", a)]]) var.value).map
            (fun res => dictUpdate var.metadata res)) := by
  constructor
  · exact ⟨by decide, by decide,
      (c3_row_is_merge (fun a : Nat => [[("sum", a)]]) none
        [Variable.mk 1 [("a", (1 : Nat))], Variable.mk 2 [("a", 2)]]
        [("a", 1), ("b", 2)] [("a", 7), ("sum", 4)] "a").2.1 (by decide) (by decide)⟩
  · exact (c3_row_is_merge (fun a : Nat => [[("sum", a)]]) none
      [Variable.mk 1 [("a", (1 : Nat))], Variable.mk 2 [("a", 2)]]
      [] [] "a").1

/-- C4: the accumulated rows are the in-order concatenation, over the
processed combinations, of each combination's merged rows in the order
the experiment function returned them; hence the row count is the sum
of the per-combination result counts. -/
theorem c4_row_order_and_count {α β : Type} (func : α → List (List (String × β)))
    (head : Option Nat) (inputs : List (Variable α β)) :
    runnerRows func head 0 inputs
      = (processedVars head inputs).flatMap (fun var => (func var.value).map
          (fun res => dictUpdate var.metadata res))
  ∧ (runnerRows func head 0 inputs).length
      = ((processedVars head inputs).map (fun var => (func var.value).length)).sum := by
  refine ⟨runnerRows_eq func head inputs, ?_⟩
  rw [runnerRows_eq func head inputs, List.length_flatMap]
  simp [Function.comp_def]

/-- C5: with `head = K` and more than `K` combinations, the experiment
function is invoked on exactly the values of the first `K` combinations
— `K` calls, none past the `K`-th — and the accumulated rows are those
of the truncated loop. -/
theorem c5_head_truncation {α β : Type} (f : α → List (List (String × β)))
    (K : Nat) (inputs : List (Variable α β)) (h : K < inputs.length) :
    (runLoop (fun a => Except.ok (f a) : α → Except Unit _) (some K) 0 inputs).1
      = (inputs.take K).map (fun v => v.value)
  ∧ ((runLoop (fun a => Except.ok (f a) : α → Except Unit _) (some K) 0 inputs).1).length = K
  ∧ (runLoop (fun a => Except.ok (f a) : α → Except Unit _) (some K) 0 inputs).2
      = Except.ok (runnerRows f (some K) 0 inputs) := by
  have h1 := runLoop_ok_fst_some (ε := Unit) f K inputs 0
  rw [Nat.sub_zero] at h1
  refine ⟨h1, ?_, runLoop_ok_snd (ε := Unit) f (some K) inputs 0⟩
  rw [h1, List.length_map, List.length_take]
  omega

/-- Witness for C5: head 1 over three combinations invokes the
experiment function only on the first value. -/
theorem c5_head_truncation_witness :
    1 < ([Variable.mk 10 [], Variable.mk 20 [], Variable.mk 30 []] :
          List (Variable Nat Nat)).length
  ∧ (runLoop (fun a => Except.ok ([[("r", a)]]) : Nat → Except Unit _) (some 1) 0
        [Variable.mk 10 [], Variable.mk 20 [], Variable.mk 30 []]).1
      = ([Variable.mk 10 [], Variable.mk 20 [], Variable.mk 30 []].take 1).map
          (fun v : Variable Nat Nat => v.value) :=
  ⟨by decide,
    (c5_head_truncation (fun a : Nat => [[("r", a)]]) 1
      [Variable.mk 10 [], Variable.mk 20 [], Variable.mk 30 []] (by decide)).1⟩

/-- C6: if the experiment function raises on a processed combination
(all earlier ones succeeding), the error propagates at once — no later
combination is ever invoked — the run aborts with that error, and the
effect trace is empty: no directory is created and no output file is
written. -/
theorem c6_failure_leaves_no_artifact {α β ε : Type}
    (func : α → Except ε (List (List (String × β))))
    (xs ys : List (Variable α β)) (bad : Variable α β) (e : ε)
    (od : Option String) (fmt fname ts : String)
    (hok : ∀ x ∈ xs, ∃ rs, func x.value = Except.ok rs)
    (hbad : func bad.value = Except.error e) :
    (runLoop func none 0 (xs ++ bad :: ys)).2 = Except.error e
  ∧ (runLoop func none 0 (xs ++ bad :: ys)).1 = xs.map (fun v => v.value) ++ [bad.value]
  ∧ wrapped func od fmt none fname ts (xs ++ bad :: ys)
      = ([], some (RunError.experimentError e)) := by
  have h := runLoop_error func xs bad ys e hok hbad 0
  refine ⟨by rw [h], by rw [h], ?_⟩
  unfold wrapped
  rw [h]

/-- Witness for C6: the second of three combinations raises; the run
aborts with that error, the third combination is never invoked, and the
effect trace is empty. -/
theorem c6_failure_leaves_no_artifact_witness :
    (∀ x ∈ [Variable.mk 0 ([] : List (String × Nat))],
        ∃ rs, (fun n : Nat =>
            if n = 0 then Except.ok ([] : List (List (String × Nat)))
            else Except.error "boom") x.value = Except.ok rs)
  ∧ (fun n : Nat =>
        if n = 0 then Except.ok ([] : List (List (String × Nat)))
        else Except.error "boom") (Variable.mk 1 ([] : List (String × Nat))).value
      = Except.error "boom"
  ∧ wrapped (fun n : Nat =>
        if n = 0 then Except.ok ([] : List (List (String × Nat)))
        else Except.error "boom")
        (some "out") "csv" none "experiment" "T"
        ([Variable.mk 0 []] ++ Variable.mk 1 [] :: [Variable.mk 2 []])
      = ([], some (RunError.experimentError "boom")) := by
  have hok : ∀ x ∈ [Variable.mk 0 ([] : List (String × Nat))],
      ∃ rs, (fun n : Nat =>
          if n = 0 then Except.ok ([] : List (List (String × Nat)))
          else Except.error "boom") x.value = Except.ok rs := by
    intro x hx
    rw [List.mem_singleton] at hx
    subst hx
    exact ⟨[], rfl⟩
  refine ⟨hok, rfl, ?_⟩
  exact (c6_failure_leaves_no_artifact
    (fun n : Nat =>
      if n = 0 then Except.ok ([] : List (List (String × Nat)))
      else Except.error "boom")
    [Variable.mk 0 []] [Variable.mk 2 []] (Variable.mk 1 []) "boom"
    (some "out") "csv" "experiment" "T" hok rfl).2.2

/-- C7: a format outside the keys of `writer_map` makes `save_df` fail —
the dispatch lookup yields nothing and calling it raises — with the
directory creation as the only effect: no writer runs, nothing is
silently defaulted, no file is written. -/
theorem c7_unknown_format_fails {β : Type} (rows : List (List (String × β)))
    (ts : String) (od name : Option String) (fmt : String)
    (h : fmt ∉ dictKeys writer_map) :
    (save_df rows ts od name fmt).2.isSome
  ∧ ∃ d, (save_df rows ts od name fmt).1 = [SdStep.mkdirP d] := by
  have hl : dictLookup writer_map fmt = none :=
    dictLookup_eq_none_of_not_mem writer_map fmt h
  unfold save_df
  rw [hl]
  exact ⟨rfl, _, rfl⟩

/-- Witness for C7: the format string "xml" is not a supported format; `save_df` fails
after only the directory-creation effect. -/
theorem c7_unknown_format_fails_witness :
    "xml" ∉ dictKeys writer_map
  ∧ (save_df ([] : List (List (String × Nat))) "T" none none "xml").2.isSome :=
  ⟨by decide,
    (c7_unknown_format_fails ([] : List (List (String × Nat))) "T" none none "xml"
      (by decide)).1⟩

/-- C8 (evaluation at the failing input): the timestamp does have the
claimed `YYYY-MM-DD_HH-MM-SS-mmm` millisecond form, and the label is
appended when non-empty, but the written path
`out/2025-01-02_03-04-05-006_experiment` carries no `.csv` extension —
`save_df` never appends an extension for the selected format, contrary
to the spec and to the repository's own test, which globs `*.csv`. -/
theorem c8_filename_has_no_extension :
    get_timestamp (LocalTime.mk 2025 1 2 3 4 5 6789) = "2025-01-02_03-04-05-006"
  ∧ (save_df ([] : List (List (String × Nat))) "2025-01-02_03-04-05-006"
        (some "out") (some "experiment") "csv").1
      = [SdStep.mkdirP "out",
         SdStep.write "write_csv" "out/2025-01-02_03-04-05-006_experiment" []]
  ∧ (save_df ([] : List (List (String × Nat))) "2025-01-02_03-04-05-006"
        (some "out") (some "") "csv").1
      = [SdStep.mkdirP "out",
         SdStep.write "write_csv" "out/2025-01-02_03-04-05-006" []] := by
  refine ⟨by decide, by decide, by decide⟩

/-- C9: whenever the experiment function returns normally on every
processed combination and the format is supported, the wrapped function
creates the output directory and performs exactly one write — also for
empty inputs or when no rows were accumulated (the write then carries a
zero-row table). -/
theorem c9_exactly_one_write {α β : Type} (f : α → List (List (String × β)))
    (od : Option String) (fmt : String) (head : Option Nat) (fname ts : String)
    (inputs : List (Variable α β)) (h : fmt ∈ dictKeys writer_map) :
    ∃ w d p, wrapped (fun a => Except.ok (f a) : α → Except Unit _)
        od fmt head fname ts inputs
      = ([SdStep.mkdirP d, SdStep.write w p (runnerRows f head 0 inputs)], none) := by
  obtain ⟨w, hw⟩ := Option.isSome_iff_exists.mp
    ((dictLookup_isSome_iff_mem writer_map fmt).mpr h)
  refine ⟨w, ?_⟩
  unfold wrapped
  rw [runLoop_ok_snd (ε := Unit) f head inputs 0]
  unfold save_df
  rw [hw]
  exact ⟨_, _, rfl⟩

/-- Witness for C9: an empty input collection still produces exactly one
(zero-row) write after creating the default output directory. -/
theorem c9_exactly_one_write_witness :
    "csv" ∈ dictKeys writer_map
  ∧ ∃ w d p, wrapped (fun _ : Nat => Except.ok ([] : List (List (String × Nat)))
        : Nat → Except Unit _) none "csv" none "experiment" "T"
        ([] : List (Variable Nat Nat))
      = ([SdStep.mkdirP d, SdStep.write w p
            (runnerRows (fun _ : Nat => ([] : List (List (String × Nat)))) none 0
              ([] : List (Variable Nat Nat)))], none) :=
  ⟨by decide,
    c9_exactly_one_write (fun _ : Nat => ([] : List (List (String × Nat))))
      none "csv" none "experiment" "T" ([] : List (Variable Nat Nat)) (by decide)⟩
